import Mathlib

/-!
Verification of the fetch-and-reconcile subsystem of a legal research agent.

The Python source (`src/pipeline/fetcher.py`, `src/pipeline/synthesizer.py`,
`src/sources/scotus.py`) is shallowly embedded below.  Strings are modelled as
`List Char` at the algorithmic core (Python string operations such as
`str.replace`, `str.split`, `re.sub` and slicing are reimplemented on
`List Char` with Python's semantics); records (Python dicts) are modelled as a
structure of `Option` fields, where `none` models an absent key.
-/

namespace USConstitutionalResearch

/-- Python `\s` on ASCII input: space, tab, newline, carriage return,
vertical tab, form feed. -/
def pyIsSpaceChar (c : Char) : Bool :=
  c == ' ' || c == '\t' || c == '\n' || c == '\r' || c == '\x0b' || c == '\x0c'

/-- The character class kept by `re.sub(r'[^a-z0-9 ]', '', n)`:
lowercase ASCII letters, digits, and the space character. -/
def keepAlnumSpace (c : Char) : Bool :=
  ('a' ≤ c && c ≤ 'z') || ('0' ≤ c && c ≤ '9') || c == ' '

/-- Python `str.lower()` (ASCII fragment). -/
def lowerL (l : List Char) : List Char :=
  l.map Char.toLower

/-- Python `str.strip()`: drop leading and trailing whitespace. -/
def stripL (l : List Char) : List Char :=
  ((l.dropWhile pyIsSpaceChar).reverse.dropWhile pyIsSpaceChar).reverse

/-- Collapse runs of whitespace to a single space (helper for
Python's `" ".join(s.split())`; the ends are trimmed by `stripL`). -/
def collapseRuns : List Char → List Char
  | [] => []
  | [c] => [if pyIsSpaceChar c then ' ' else c]
  | c :: d :: rest =>
    if pyIsSpaceChar c && pyIsSpaceChar d then collapseRuns (d :: rest)
    else (if pyIsSpaceChar c then ' ' else c) :: collapseRuns (d :: rest)

/-- Python `" ".join(s.split())`: split on whitespace runs, drop empties,
rejoin with single spaces. -/
def collapseWsL (l : List Char) : List Char :=
  stripL (collapseRuns l)

/-- Fueled worker for `replaceL` (Python `str.replace`): leftmost,
non-overlapping replacement of every occurrence of `pat` by `rep`. -/
def replaceLAux (pat rep : List Char) : Nat → List Char → List Char
  | _, [] => []
  | 0, l => l
  | fuel + 1, c :: cs =>
    if pat.isPrefixOf (c :: cs) then
      rep ++ replaceLAux pat rep fuel ((c :: cs).drop pat.length)
    else
      c :: replaceLAux pat rep fuel cs

/-- Python `s.replace(pat, rep)` for a non-empty pattern. -/
def replaceL (pat rep l : List Char) : List Char :=
  if pat.isEmpty then l else replaceLAux pat rep l.length l

/-- Fueled worker for `splitOnL` (Python `str.split(sep)` with explicit
separator): leftmost, non-overlapping. -/
def splitOnLAux (sep : List Char) : Nat → List Char → List Char → List (List Char)
  | _, acc, [] => [acc.reverse]
  | 0, acc, l => [acc.reverse ++ l]
  | fuel + 1, acc, c :: cs =>
    if sep.isPrefixOf (c :: cs) then
      acc.reverse :: splitOnLAux sep fuel [] ((c :: cs).drop sep.length)
    else
      splitOnLAux sep fuel (c :: acc) cs

/-- Python `s.split(sep)` for a non-empty separator. -/
def splitOnL (sep l : List Char) : List (List Char) :=
  if sep.isEmpty then [l] else splitOnLAux sep l.length [] l

/-- Python's substring test `a in b` (the empty string is in everything). -/
def pyInL : List Char → List Char → Bool
  | a, [] => a.isEmpty
  | a, c :: cs => a.isPrefixOf (c :: cs) || pyInL a cs

/-- The normalization inside `CaseFetcher._names_match`: lowercase, strip,
canonicalize `" v. "` and `" vs. "` to `" v "`, drop every character other
than lowercase letters, digits and spaces, collapse whitespace. -/
def matchNormL (l : List Char) : List Char :=
  let n := stripL (lowerL l)
  let n := replaceL " v. ".data " v ".data n
  let n := replaceL " vs. ".data " v ".data n
  let n := n.filter keepAlnumSpace
  collapseWsL n

/-- Embeds `CaseFetcher._names_match`: containment of normalized forms, else
first-6-characters comparison of the two parties when both names split into
exactly two parties on `" v "`. -/
def namesMatchL (name1 name2 : List Char) : Bool :=
  if pyInL (matchNormL name1) (matchNormL name2) ||
      pyInL (matchNormL name2) (matchNormL name1) then true
  else
    match splitOnL " v ".data (matchNormL name1),
        splitOnL " v ".data (matchNormL name2) with
    | [a1, b1], [a2, b2] =>
      ((stripL a1).take 6 == (stripL a2).take 6) &&
        ((stripL b1).take 6 == (stripL b2).take 6)
    | _, _ => false

/-- Embeds `CaseFetcher._names_match` at the `String` boundary. -/
def names_match (name1 name2 : String) : Bool :=
  namesMatchL name1.data name2.data

example : names_match "Harlow v. Fitzgerald" "Harlow v. Fitzgerald, 457 U.S. 800" = true := by
  decide

example : names_match "a vs b" "a vs. b" = false := by decide

example : names_match "abcdefgh v smith" "abcdefgz v smith" = true := by decide

/-- A record returned by a data source, or a landmark-table entry.  Python
dicts are modelled by `Option` fields: `none` models an absent key. -/
structure Rec where
  case_name : Option String := none
  citation : Option String := none
  topic : Option String := none
  source : Option String := none
  is_landmark : Option Bool := none
  title : Option String := none
  deriving DecidableEq, Repr

/-- Python `case.get("case_name", "")`, as a character list. -/
def getNameL (r : Rec) : List Char :=
  (r.case_name.getD "").data

/-- The dedup key built inside `CaseFetcher._deduplicate`:
`name.lower().strip()`, then `re.sub(r'[^a-z0-9 ]', '', name)`, then
`" ".join(name.split())[:60]`. -/
def dedupKeyL (r : Rec) : List Char :=
  let n := stripL (lowerL (getNameL r))
  let n := n.filter keepAlnumSpace
  (collapseWsL n).take 60

/-- The loop of `CaseFetcher._deduplicate`, with the `seen` set modelled as
the list of keys added so far. -/
def dedupGo (seen : List (List Char)) : List Rec → List Rec
  | [] => []
  | c :: cs =>
    if dedupKeyL c ≠ [] ∧ ¬ dedupKeyL c ∈ seen then
      c :: dedupGo (dedupKeyL c :: seen) cs
    else dedupGo seen cs

/-- Embeds `CaseFetcher._deduplicate`. -/
def deduplicate (cases : List Rec) : List Rec :=
  dedupGo [] cases

/-- Matcher for the separator regex `\s+v\.?\s+` at the head of a list:
returns the remainder after the separator when the regex matches here. -/
def matchSepV (l : List Char) : Option (List Char) :=
  let ws := l.takeWhile pyIsSpaceChar
  if ws.isEmpty then none
  else
    match l.drop ws.length with
    | 'v' :: rest =>
      match rest with
      | '.' :: r2 =>
        match r2 with
        | c :: _ => if pyIsSpaceChar c then some (r2.dropWhile pyIsSpaceChar) else none
        | [] => none
      | c :: _ => if pyIsSpaceChar c then some (rest.dropWhile pyIsSpaceChar) else none
      | [] => none
    | _ => none

/-- Fueled worker for `pySplitV` (Python `re.split(r'\s+v\.?\s+', s)`). -/
def splitVAux : Nat → List Char → List Char → List (List Char)
  | _, acc, [] => [acc.reverse]
  | 0, acc, l => [acc.reverse ++ l]
  | fuel + 1, acc, c :: cs =>
    match matchSepV (c :: cs) with
    | some rem => acc.reverse :: splitVAux fuel [] rem
    | none => splitVAux fuel (c :: acc) cs

/-- Python `re.split(r'\s+v\.?\s+', s)`. -/
def pySplitV (l : List Char) : List (List Char) :=
  splitVAux l.length [] l

example : pySplitV "fourth amendment carpenter v. united states".data =
    ["fourth amendment carpenter".data, "united states".data] := by decide

/-- Embeds `CaseFetcher._best_match`, transcribed from the Python control flow:
first the exact-identity loop, then (when the target splits into exactly two
parties) the partial-containment loop, finally the top result if any. -/
def best_match (target_name : String) (results : List Rec) : Option Rec :=
  match results.find? (fun r =>
      namesMatchL (stripL (lowerL target_name.data)) (lowerL (getNameL r))) with
  | some r => some r
  | none =>
    match pySplitV (stripL (lowerL target_name.data)) with
    | [p1, p2] =>
      match results.find? (fun r =>
          pyInL ((stripL p1).take 8) (lowerL (getNameL r)) &&
            pyInL ((stripL p2).take 8) (lowerL (getNameL r))) with
      | some r => some r
      | none => results.head?
    | _ => results.head?

/-- Rule 1 of the spec's best-match tie-break order: first candidate whose
display name matches the target per the Name Matcher. -/
def specRule1 (target : List Char) (results : List Rec) : Option Rec :=
  results.find? (fun r => namesMatchL target (lowerL (getNameL r)))

/-- Rule 2 of the spec's tie-break order: when the target splits on the
`" v "` pattern into exactly two parties, the first candidate whose display
name contains the first 8 characters of each party name. -/
def specRule2 (target : List Char) (results : List Rec) : Option Rec :=
  match pySplitV target with
  | [p1, p2] =>
    results.find? (fun r =>
      pyInL ((stripL p1).take 8) (lowerL (getNameL r)) &&
        pyInL ((stripL p2).take 8) (lowerL (getNameL r)))
  | _ => none

/-- First-result-wins composition of two optional rules. -/
def firstSome : Option Rec → Option Rec → Option Rec
  | some x, _ => some x
  | none, b => b

/-- Best-match selection as the spec states it: rule 1, else rule 2, else the
first candidate in the adapter's original order, else none. -/
def specBestMatch (target_name : String) (results : List Rec) : Option Rec :=
  firstSome (specRule1 (stripL (lowerL target_name.data)) results)
    (firstSome (specRule2 (stripL (lowerL target_name.data)) results) results.head?)

/-- The two search adapters the fetcher queries, modelled as pure functions
from `(query, max_results)` to a result list (fixed mocked responses). -/
structure Env where
  cl_search : String → Nat → List Rec
  congress_search : String → Nat → List Rec

/-- The quoted query `f'"{case_name}"'` built by `CaseFetcher._fetch_case`. -/
def quotedQuery (s : String) : String :=
  "\"" ++ s ++ "\""

/-- Embeds `CaseFetcher._fetch_case`: quoted search first; when it returns nothing
usable, fall back to the unquoted looser search. -/
def fetch_case (env : Env) (name : String) : Option Rec :=
  let rs := env.cl_search (quotedQuery name) 3
  let step1 := if rs.isEmpty then none else best_match name rs
  match step1 with
  | some b => some b
  | none =>
    let rs2 := env.cl_search name 3
    if rs2.isEmpty then none else best_match name rs2

/-- The search-term cleanup in `CaseFetcher._fetch_statute`.  The source
file's first `replace` pattern is the two-character sequence `"ยง"`
(U+0E22 U+0E07, a mojibake corruption of the section sign `"§"`), so that is
what is stripped — not the section sign itself. -/
def cleanStatuteTermL (l : List Char) : List Char :=
  stripL (replaceL "U.S.C.".data [] (replaceL ['ย', 'ง'] [] l))

/-- Modelled from the spec: the statute-name cleanup as §4.2 states it —
"strip statutory-citation punctuation (section-symbol, \"U.S.C.\") from the
name", i.e. remove the section sign `"§"` and `"U.S.C."`, then trim. -/
def specCleanStatuteL (l : List Char) : List Char :=
  stripL (replaceL "U.S.C.".data [] (replaceL ['§'] [] l))

/-- Embeds `CaseFetcher._fetch_statute`: query the legislative adapter with the
cleaned term and keep only the first returned record. -/
def fetch_statute (env : Env) (name : String) : Option Rec :=
  (env.congress_search (String.mk (cleanStatuteTermL name.data)) 3).head?

/-- Embeds `CaseFetcher._search_cases`: the broader exploratory query. -/
def search_cases (env : Env) (q : String) : List Rec :=
  env.cl_search q 5

/-- A landmark-table entry (`{case_name, citation, topic}` dict). -/
def lmRec (n c t : String) : Rec :=
  { case_name := some n, citation := some c, topic := some t }

/-- The landmark table type: topic keyword to list of landmark entries,
in insertion order (Python dicts preserve insertion order). -/
abbrev LTable : Type :=
  List (String × List Rec)

/-- The table `LANDMARK_CASES` from `src/sources/scotus.py`, transcribed in full. -/
def LANDMARK_CASES : LTable := [
  ("fourth amendment", [
    lmRec "Carpenter v. United States" "585 U.S. 296 (2018)" "Cell phone location data is protected by 4th Amendment",
    lmRec "Riley v. California" "573 U.S. 373 (2014)" "Police must get warrant to search cell phones",
    lmRec "Katz v. United States" "389 U.S. 347 (1967)" "Established reasonable expectation of privacy test",
    lmRec "Terry v. Ohio" "392 U.S. 1 (1968)" "Stop and frisk standards",
    lmRec "Mapp v. Ohio" "367 U.S. 643 (1961)" "Exclusionary rule applies to states"]),
  ("first amendment", [
    lmRec "Tinker v. Des Moines" "393 U.S. 503 (1969)" "Student free speech in schools",
    lmRec "New York Times Co. v. Sullivan" "376 U.S. 254 (1964)" "Actual malice standard for public figures",
    lmRec "Brandenburg v. Ohio" "395 U.S. 444 (1969)" "Imminent lawless action test",
    lmRec "Citizens United v. FEC" "558 U.S. 310 (2010)" "Corporate political speech",
    lmRec "Snyder v. Phelps" "562 U.S. 443 (2011)" "Westboro Baptist Church protests protected"]),
  ("equal protection", [
    lmRec "Brown v. Board of Education" "347 U.S. 483 (1954)" "School segregation unconstitutional",
    lmRec "Students for Fair Admissions v. Harvard" "600 U.S. 181 (2023)" "Race-conscious admissions unconstitutional",
    lmRec "Obergefell v. Hodges" "576 U.S. 644 (2015)" "Same-sex marriage is a fundamental right",
    lmRec "Loving v. Virginia" "388 U.S. 1 (1967)" "Interracial marriage bans unconstitutional"]),
  ("due process", [
    lmRec "Mathews v. Eldridge" "424 U.S. 319 (1976)" "Three-factor balancing test for procedural due process",
    lmRec "Gideon v. Wainwright" "372 U.S. 335 (1963)" "Right to counsel in criminal cases",
    lmRec "Miranda v. Arizona" "384 U.S. 436 (1966)" "Miranda rights required before interrogation",
    lmRec "Roe v. Wade" "410 U.S. 113 (1973)" "Substantive due process and privacy (overruled by Dobbs)",
    lmRec "Dobbs v. Jackson" "597 U.S. 215 (2022)" "No constitutional right to abortion, overruling Roe"]),
  ("qualified immunity", [
    lmRec "Harlow v. Fitzgerald" "457 U.S. 800 (1982)" "Established qualified immunity doctrine",
    lmRec "Pearson v. Callahan" "555 U.S. 223 (2009)" "Courts can skip clearly established analysis",
    lmRec "Kisela v. Hughes" "584 U.S. 100 (2018)" "High bar for defeating qualified immunity"]),
  ("second amendment", [
    lmRec "District of Columbia v. Heller" "554 U.S. 570 (2008)" "Individual right to bear arms",
    lmRec "McDonald v. City of Chicago" "561 U.S. 742 (2010)" "2nd Amendment applies to states",
    lmRec "New York State Rifle & Pistol Assn. v. Bruen" "597 U.S. 1 (2022)" "Text, history, and tradition test for gun laws"]),
  ("executive power", [
    lmRec "Youngstown Sheet & Tube Co. v. Sawyer" "343 U.S. 579 (1952)" "Limits on presidential power framework",
    lmRec "Trump v. Hawaii" "585 U.S. 667 (2018)" "Presidential authority over immigration",
    lmRec "Nixon v. United States" "418 U.S. 683 (1974)" "Executive privilege is not absolute"]),
  ("section 1983", [
    lmRec "Monroe v. Pape" "365 U.S. 167 (1961)" "Section 1983 applies to state officials acting under color of law",
    lmRec "Monell v. Department of Social Services" "436 U.S. 658 (1978)" "Municipal liability under Section 1983",
    lmRec "Graham v. Connor" "490 U.S. 386 (1989)" "Objective reasonableness standard for excessive force"]),
  ("privacy", [
    lmRec "Griswold v. Connecticut" "381 U.S. 479 (1965)" "Right to privacy in marital relations",
    lmRec "Carpenter v. United States" "585 U.S. 296 (2018)" "Digital privacy and cell phone tracking",
    lmRec "Riley v. California" "573 U.S. 373 (2014)" "Cell phone search requires warrant"]),
  ("digital", [
    lmRec "Carpenter v. United States" "585 U.S. 296 (2018)" "Cell-site location information protected",
    lmRec "Riley v. California" "573 U.S. 373 (2014)" "Warrantless cell phone search unconstitutional",
    lmRec "United States v. Jones" "565 U.S. 400 (2012)" "GPS tracking constitutes a search"])]

/-- Enumeration with indices starting at `n` (helper for modelling which
table slot a Python dict object occupies). -/
def enumL {α : Type} : Nat → List α → List (Nat × α)
  | _, [] => []
  | n, a :: as => (n, a) :: enumL (n + 1) as

/-- The iteration of `SCOTUSClient.search_by_topic`, keeping the table
position of each entry: for each topic keyword that is a substring of the
(lowercased) query, all of that topic's entries, in table order. -/
def searchHits (t : LTable) (topicLower : List Char) : List (Nat × Nat × Rec) :=
  (enumL 0 t).flatMap (fun p =>
    if pyInL p.2.1.data topicLower then
      (enumL 0 p.2.2).map (fun q => (p.1, q.1, q.2))
    else [])

/-- Write `r` into slot `(i, j)` of the landmark table (models Python's
in-place mutation of the dict object stored there). -/
def setTable (t : LTable) (i j : Nat) (r : Rec) : LTable :=
  match t.get? i with
  | none => t
  | some (kw, recs) => t.set i (kw, recs.set j r)

/-- The in-place tagging `landmark["source"] = "scotus_landmark";
landmark["is_landmark"] = True` performed by `CaseFetcher._check_landmark`. -/
def tagLandmark (c : Rec) : Rec :=
  { c with source := some "scotus_landmark", is_landmark := some true }

/-- Embeds `CaseFetcher._check_landmark`: search the landmark table by topic
keyword (max 3 hits), return the first entry whose name matches the
requested name, tagging it with `source` and `is_landmark` — a mutation of
the aliased table entry, so the updated table is returned as well. -/
def check_landmark (t : LTable) (case_name : String) : Option Rec × LTable :=
  let nl := lowerL case_name.data
  let hits := (searchHits t nl).take 3
  match hits.find? (fun h => namesMatchL nl (lowerL (getNameL h.2.2))) with
  | none => (none, t)
  | some (i, j, c) => (some (tagLandmark c), setTable t i j (tagLandmark c))

/-- Embeds `CaseFetcher._already_have`: is some existing record's name an
identity-match for this case's name? -/
def already_have (c : Rec) (existing : List Rec) : Bool :=
  let name := lowerL (getNameL c)
  existing.any (fun e => namesMatchL name (lowerL (getNameL e)))

/-- The landmark-enrichment loop at the end of `CaseFetcher.fetch`: for each
requested case name in original order, look up the landmark table and append
the match unless an identity-matching case is already present. -/
def landmarkPhase (t : LTable) (names : List String) (cases : List Rec) :
    List Rec × LTable :=
  match names with
  | [] => (cases, t)
  | n :: rest =>
    let r := check_landmark t n
    match r.1 with
    | some lm =>
      if already_have lm cases then landmarkPhase r.2 rest cases
      else landmarkPhase r.2 rest (cases ++ [lm])
    | none => landmarkPhase r.2 rest cases

/-- A fan-out task of `CaseFetcher.fetch` (one per requested case name,
statute name, and search query). -/
inductive Task where
  | case (name : String)
  | statute (name : String)
  | search (q : String)
  deriving DecidableEq, Repr

/-- The canonical task list built by `CaseFetcher.fetch`. -/
def tasksOf (case_names statute_names search_queries : List String) : List Task :=
  case_names.map Task.case ++ statute_names.map Task.statute ++
    search_queries.map Task.search

/-- The contribution of one completed task to the `cases` accumulator
(case results are appended, search results extended, statutes none). -/
def taskCases (env : Env) : Task → List Rec
  | .case n => (fetch_case env n).toList
  | .search q => search_cases env q
  | .statute _ => []

/-- The contribution of one completed task to the `statutes` accumulator. -/
def taskStatutes (env : Env) : Task → List Rec
  | .statute n => (fetch_statute env n).toList
  | _ => []

/-- The value of one `CaseFetcher.fetch` call, together with the final state
of the process-wide landmark table. -/
structure FetchResult where
  cases : List Rec
  statutes : List Rec
  table : LTable

/-- Embeds `CaseFetcher.fetch`: collect task results in completion order (`order`
is the completion order, a permutation of the canonical task list),
deduplicate the cases, then run landmark enrichment over the requested case
names. -/
def fetch (env : Env) (t : LTable) (case_names statute_names search_queries : List String)
    (order : List Task) : FetchResult :=
  let rawCases := order.flatMap (taskCases env)
  let rawStatutes := order.flatMap (taskStatutes env)
  let deduped := deduplicate rawCases
  let lp := landmarkPhase t case_names deduped
  { cases := lp.1, statutes := rawStatutes, table := lp.2 }

/-- The found-statute test inside `Synthesizer._missing_statutes_text`:
a requested name counts as found when its lowercased form and some found
statute's lowercased title contain one another. -/
def wasFound (found : List Rec) (name : String) : Bool :=
  let foundTitles := found.map (fun s => lowerL (s.title.getD "").data)
  let nl := lowerL name.data
  foundTitles.any (fun t => pyInL nl t || pyInL t nl)

/-- The `missing` list built by `Synthesizer._missing_statutes_text`: the
requested statute names that were not found, in request order. -/
def missingStatutes (identified : List String) (found : List Rec) : List String :=
  identified.filter (fun n => !wasFound found n)

/-- Embeds `Synthesizer._missing_statutes_text`, the surfaced gap text. -/
def missing_statutes_text (identified : List String) (found : List Rec) : String :=
  if identified.isEmpty then ""
  else
    let missing := missingStatutes identified found
    if missing.isEmpty then ""
    else String.intercalate "\n" (missing.map (fun n => "- " ++ n))

/-! ### Helper lemmas about deduplication -/

/-- Every record surviving `dedupGo` has a non-empty key that was not in the
incoming `seen` set. -/
theorem mem_dedupGo {r : Rec} :
    ∀ (l : List Rec) (seen : List (List Char)), r ∈ dedupGo seen l →
      dedupKeyL r ≠ [] ∧ ¬ dedupKeyL r ∈ seen := by
  intro l
  induction l with
  | nil => intro seen h; simp [dedupGo] at h
  | cons c cs ih =>
    intro seen h
    rw [dedupGo] at h
    split at h
    · rename_i hcond
      rcases List.mem_cons.mp h with h1 | h2
      · subst h1; exact hcond
      · have h3 := ih _ h2
        exact ⟨h3.1, fun hs => h3.2 (List.mem_cons_of_mem _ hs)⟩
    · exact ih _ h

/-- The output of `dedupGo` has pairwise-distinct dedup keys. -/
theorem dedupGo_pairwise :
    ∀ (l : List Rec) (seen : List (List Char)),
      (dedupGo seen l).Pairwise (fun a b => dedupKeyL a ≠ dedupKeyL b) := by
  intro l
  induction l with
  | nil => intro seen; simp [dedupGo]
  | cons c cs ih =>
    intro seen
    rw [dedupGo]
    split
    · refine List.Pairwise.cons ?_ (ih _)
      intro r hr heq
      exact (mem_dedupGo _ _ hr).2 (heq ▸ List.mem_cons_self _ _)
    · exact ih _

/-- A list whose records already have non-empty, pairwise-distinct keys,
none of them in `seen`, passes through `dedupGo` unchanged. -/
theorem dedupGo_eq_self :
    ∀ (xs : List Rec) (seen : List (List Char)),
      (∀ r ∈ xs, dedupKeyL r ≠ [] ∧ ¬ dedupKeyL r ∈ seen) →
      xs.Pairwise (fun a b => dedupKeyL a ≠ dedupKeyL b) →
      dedupGo seen xs = xs := by
  intro xs
  induction xs with
  | nil => intro seen _ _; rfl
  | cons c cs ih =>
    intro seen hok hpw
    have hc := hok c (List.mem_cons_self _ _)
    rw [dedupGo, if_pos hc]
    congr 1
    apply ih
    · intro r hr
      have h1 := (hok r (List.mem_cons_of_mem _ hr)).1
      have h2 := (hok r (List.mem_cons_of_mem _ hr)).2
      refine ⟨h1, ?_⟩
      intro hmem
      rcases List.mem_cons.mp hmem with heq | hmem2
      · exact (List.rel_of_pairwise_cons hpw hr) heq.symm
      · exact h2 hmem2
    · exact hpw.of_cons

/-- Key-set characterization of `dedupGo`: a key occurs among the output
keys exactly when it is non-empty, outside `seen`, and occurs among the
input keys. -/
theorem mem_map_key_dedupGo :
    ∀ (l : List Rec) (seen : List (List Char)) (k : List Char),
      k ∈ (dedupGo seen l).map dedupKeyL ↔
        (¬ k ∈ seen ∧ k ≠ [] ∧ k ∈ l.map dedupKeyL) := by
  intro l
  induction l with
  | nil => intro seen k; simp [dedupGo]
  | cons c cs ih =>
    intro seen k
    rw [dedupGo]
    split
    · rename_i hcond
      simp only [List.map_cons, List.mem_cons]
      constructor
      · rintro (rfl | htail)
        · exact ⟨hcond.2, hcond.1, Or.inl rfl⟩
        · have h3 := (ih _ _).mp htail
          exact ⟨fun hs => h3.1 (List.mem_cons_of_mem _ hs), h3.2.1, Or.inr h3.2.2⟩
      · rintro ⟨hns, hne, (rfl | hmem)⟩
        · exact Or.inl rfl
        · by_cases hk : k = dedupKeyL c
          · exact Or.inl hk
          · refine Or.inr ((ih _ _).mpr ⟨?_, hne, hmem⟩)
            intro hs
            rcases List.mem_cons.mp hs with h5 | h5
            · exact hk h5
            · exact hns h5
    · rename_i hcond
      rw [ih]
      simp only [List.map_cons, List.mem_cons]
      constructor
      · rintro ⟨hns, hne, hmem⟩
        exact ⟨hns, hne, Or.inr hmem⟩
      · rintro ⟨hns, hne, (rfl | hmem)⟩
        · exfalso
          rcases not_and_or.mp hcond with h5 | h5
          · exact hne (not_not.mp h5)
          · exact hns (not_not.mp h5)
        · exact ⟨hns, hne, hmem⟩

/-! ### Helper lemmas about the landmark table -/

/-- The `{case_name, citation, topic}` core of a record — the fields a
landmark-table entry is seeded with. -/
def coreOf (r : Rec) : Option String × Option String × Option String :=
  (r.case_name, r.citation, r.topic)

/-- The landmark table seen through its seeded core fields. -/
def coreTable (t : LTable) :
    List (String × List (Option String × Option String × Option String)) :=
  t.map (fun p => (p.1, p.2.map coreOf))

/-- All entries of the table have a non-empty dedup key. -/
def tableKeysOK (t : LTable) : Prop :=
  ∀ p ∈ t, ∀ r ∈ p.2, dedupKeyL r ≠ []

theorem enumL_mem {α : Type} :
    ∀ (l : List α) (n i : Nat) (a : α), (i, a) ∈ enumL n l →
      ∃ j, i = n + j ∧ l.get? j = some a := by
  intro l
  induction l with
  | nil => intro n i a h; simp [enumL] at h
  | cons b bs ih =>
    intro n i a h
    rw [enumL] at h
    rcases List.mem_cons.mp h with h1 | h1
    · refine ⟨0, ?_, ?_⟩
      · exact (Prod.mk.injEq _ _ _ _ ▸ h1).1
      · have := (Prod.mk.injEq _ _ _ _ ▸ h1).2
        simp [this]
    · rcases ih _ _ _ h1 with ⟨j, hj1, hj2⟩
      exact ⟨j + 1, by omega, by simpa using hj2⟩

/-- A hit of the topic search names an actual slot of the table. -/
theorem searchHits_get :
    ∀ (t : LTable) (topic : List Char) (i j : Nat) (c : Rec),
      (i, j, c) ∈ searchHits t topic →
      ∃ kw recs, t.get? i = some (kw, recs) ∧ recs.get? j = some c := by
  intro t topic i j c h
  rw [searchHits, List.mem_flatMap] at h
  rcases h with ⟨p, hp, hmem⟩
  split at hmem
  · rw [List.mem_map] at hmem
    rcases hmem with ⟨q, hq, heq⟩
    have h1 : p.1 = i := (Prod.mk.injEq _ _ _ _ ▸ heq).1
    have h2 : q.1 = j ∧ q.2 = c := Prod.mk.injEq _ _ _ _ ▸ (Prod.mk.injEq _ _ _ _ ▸ heq).2
    rcases enumL_mem t 0 p.1 p.2 hp with ⟨j0, hj0, hget⟩
    rcases enumL_mem p.2.2 0 q.1 q.2 hq with ⟨j1, hj1, hget1⟩
    refine ⟨p.2.1, p.2.2, ?_, ?_⟩
    · rw [← h1, hj0]
      simpa using hget
    · rw [← h2.1, ← h2.2, hj1]
      simpa using hget1
  · simp at hmem

theorem set_get_self {α : Type} :
    ∀ (l : List α) (n : Nat) (a : α), l.get? n = some a → l.set n a = l := by
  intro l
  induction l with
  | nil => intro n a h; simp at h
  | cons b bs ih =>
    intro n a h
    cases n with
    | zero =>
      rw [List.get?_cons_zero, Option.some.injEq] at h
      rw [List.set_cons_zero, h]
    | succ m =>
      rw [List.get?_cons_succ] at h
      rw [List.set_cons_succ, ih m a h]

theorem map_coreOf_set :
    ∀ (l : List Rec) (j : Nat) (c c' : Rec), l.get? j = some c →
      coreOf c' = coreOf c → (l.set j c').map coreOf = l.map coreOf := by
  intro l
  induction l with
  | nil => intro j c c' h _; simp at h
  | cons b bs ih =>
    intro j c c' h hcore
    cases j with
    | zero =>
      rw [List.get?_cons_zero, Option.some.injEq] at h
      subst h
      rw [List.set_cons_zero, List.map_cons, List.map_cons, hcore]
    | succ m =>
      rw [List.get?_cons_succ] at h
      rw [List.set_cons_succ, List.map_cons, List.map_cons, ih m c c' h hcore]

/-- Writing a record whose core fields agree with the occupant of the slot
leaves the core view of the table unchanged. -/
theorem coreTable_setTable :
    ∀ (t : LTable) (i j : Nat) (c c' : Rec) (kw : String) (recs : List Rec),
      t.get? i = some (kw, recs) → recs.get? j = some c → coreOf c' = coreOf c →
      coreTable (setTable t i j c') = coreTable t := by
  intro t i j c c' kw recs hti hrj hcore
  rw [setTable, hti]
  rw [coreTable, coreTable, List.map_set]
  have h1 : (recs.set j c').map coreOf = recs.map coreOf :=
    map_coreOf_set recs j c c' hrj hcore
  simp only [h1]
  apply set_get_self
  rw [List.get?_map, hti]
  rfl

/-- The operation `check_landmark` never changes the seeded core fields of the table. -/
theorem check_landmark_coreTable (t : LTable) (n : String) :
    coreTable (check_landmark t n).2 = coreTable t := by
  rw [check_landmark]
  cases hfind : ((searchHits t (lowerL n.data)).take 3).find?
      (fun h => namesMatchL (lowerL n.data) (lowerL (getNameL h.2.2))) with
  | none => rfl
  | some h =>
    rcases h with ⟨i, j, c⟩
    have hmem : (i, j, c) ∈ (searchHits t (lowerL n.data)).take 3 :=
      List.mem_of_find?_eq_some hfind
    have hmem2 : (i, j, c) ∈ searchHits t (lowerL n.data) :=
      List.mem_of_mem_take hmem
    rcases searchHits_get _ _ _ _ _ hmem2 with ⟨kw, recs, hti, hrj⟩
    exact coreTable_setTable t i j c _ kw recs hti hrj rfl

/-- The landmark record handed back by `check_landmark` came from a table
slot, up to the `source`/`is_landmark` tagging (its core and hence its dedup
key are a table entry's). -/
theorem check_landmark_some_mem (t : LTable) (n : String) (lm : Rec) :
    (check_landmark t n).1 = some lm →
      ∃ p ∈ t, ∃ c ∈ p.2, dedupKeyL lm = dedupKeyL c := by
  rw [check_landmark]
  cases hfind : ((searchHits t (lowerL n.data)).take 3).find?
      (fun h => namesMatchL (lowerL n.data) (lowerL (getNameL h.2.2))) with
  | none => intro h; simp at h
  | some h =>
    rcases h with ⟨i, j, c⟩
    intro heq
    simp only [Option.some.injEq] at heq
    have hmem : (i, j, c) ∈ (searchHits t (lowerL n.data)).take 3 :=
      List.mem_of_find?_eq_some hfind
    have hmem2 : (i, j, c) ∈ searchHits t (lowerL n.data) :=
      List.mem_of_mem_take hmem
    rcases searchHits_get _ _ _ _ _ hmem2 with ⟨kw, recs, hti, hrj⟩
    refine ⟨(kw, recs), List.get?_mem hti, c, List.get?_mem hrj, ?_⟩
    rw [← heq]
    rfl

/-- The operation `check_landmark` preserves non-emptiness of all table keys. -/
theorem check_landmark_keysOK (t : LTable) (n : String) (hok : tableKeysOK t) :
    tableKeysOK (check_landmark t n).2 := by
  rw [check_landmark]
  cases hfind : ((searchHits t (lowerL n.data)).take 3).find?
      (fun h => namesMatchL (lowerL n.data) (lowerL (getNameL h.2.2))) with
  | none => exact hok
  | some h =>
    rcases h with ⟨i, j, c⟩
    have hmem2 : (i, j, c) ∈ searchHits t (lowerL n.data) :=
      List.mem_of_mem_take (List.mem_of_find?_eq_some hfind)
    rcases searchHits_get _ _ _ _ _ hmem2 with ⟨kw, recs, hti, hrj⟩
    simp only [setTable, hti]
    intro p hp r hr
    rcases List.mem_or_eq_of_mem_set hp with hp1 | hp1
    · exact hok p hp1 r hr
    · subst hp1
      rcases List.mem_or_eq_of_mem_set hr with hr1 | hr1
      · exact hok (kw, recs) (List.get?_mem hti) r hr1
      · subst hr1
        have hkey : dedupKeyL (tagLandmark c) = dedupKeyL c := rfl
        rw [hkey]
        exact hok (kw, recs) (List.get?_mem hti) c (List.get?_mem hrj)

/-- The landmark-enrichment loop never changes the seeded core fields of
the table. -/
theorem landmarkPhase_coreTable :
    ∀ (names : List String) (t : LTable) (cases : List Rec),
      coreTable (landmarkPhase t names cases).2 = coreTable t := by
  intro names
  induction names with
  | nil => intro t cases; rfl
  | cons n rest ih =>
    intro t cases
    rw [landmarkPhase]
    cases hcl : (check_landmark t n).1 with
    | none =>
      simp only [hcl]
      rw [ih]
      exact check_landmark_coreTable t n
    | some lm =>
      simp only [hcl]
      split
      · rw [ih]; exact check_landmark_coreTable t n
      · rw [ih]; exact check_landmark_coreTable t n

/-- Every record coming out of the landmark-enrichment loop either was
already present or has a non-empty dedup key (given table invariant). -/
theorem landmarkPhase_keys :
    ∀ (names : List String) (t : LTable) (cases : List Rec),
      tableKeysOK t → (∀ r ∈ cases, dedupKeyL r ≠ []) →
      ∀ r ∈ (landmarkPhase t names cases).1, dedupKeyL r ≠ [] := by
  intro names
  induction names with
  | nil => intro t cases _ hcs r hr; exact hcs r hr
  | cons n rest ih =>
    intro t cases hok hcs r hr
    rw [landmarkPhase] at hr
    have hok2 : tableKeysOK (check_landmark t n).2 := check_landmark_keysOK t n hok
    cases hcl : (check_landmark t n).1 with
    | none =>
      rw [hcl] at hr
      exact ih _ _ hok2 hcs r hr
    | some lm =>
      simp only [hcl] at hr
      have hlm : dedupKeyL lm ≠ [] := by
        rcases check_landmark_some_mem t n lm hcl with ⟨p, hp, c, hc, hkey⟩
        rw [hkey]
        exact hok p hp c hc
      by_cases hah : already_have lm cases = true
      · rw [if_pos hah] at hr
        exact ih _ _ hok2 hcs r hr
      · rw [if_neg hah] at hr
        refine ih _ _ hok2 ?_ r hr
        intro r2 hr2
        rcases List.mem_append.mp hr2 with h2 | h2
        · exact hcs r2 h2
        · rw [List.mem_singleton.mp h2]
          exact hlm

/-! ### Claim theorems -/

/-- C2: on the requested statute name `"42 U.S.C. § 1983"` the code's
search-term cleanup does not strip the section symbol: the code removes the
mojibake sequence `"ยง"` instead of `"§"`, so its query still contains `'§'`
and differs from the spec-mandated cleanup (which removes the section
symbol). -/
theorem c2_section_symbol_not_stripped :
    cleanStatuteTermL "42 U.S.C. § 1983".data ≠
      specCleanStatuteL "42 U.S.C. § 1983".data ∧
    '§' ∈ cleanStatuteTermL "42 U.S.C. § 1983".data ∧
    ¬ '§' ∈ specCleanStatuteL "42 U.S.C. § 1983".data ∧
    fetch_statute { cl_search := fun _ _ => [], congress_search := fun q _ =>
        if q = "42  § 1983" then [{ title := some "found" }] else [] }
      "42 U.S.C. § 1983" = some { title := some "found" } := by
  refine ⟨by decide, by decide, by decide, ?_⟩
  rfl

/-- C4 counterexample: two case names whose first parties differ
(`"abcdefgh"` vs `"abcdefgz"`) and whose second parties are identical, yet
the Name Matcher returns `true`, because the party rule compares only the
first 6 characters of each party. -/
theorem c4_counterexample :
    (splitOnL " v ".data (matchNormL "abcdefgh v smith".data)).head? ≠
      (splitOnL " v ".data (matchNormL "abcdefgz v smith".data)).head? ∧
    (splitOnL " v ".data (matchNormL "abcdefgh v smith".data)).get? 1 =
      (splitOnL " v ".data (matchNormL "abcdefgz v smith".data)).get? 1 ∧
    names_match "abcdefgh v smith" "abcdefgz v smith" = true := by
  refine ⟨by decide, by decide, by decide⟩

/-- C4 (amended): when neither normalized name contains the other and the
first parties differ within their first 6 normalized characters, the Name
Matcher returns false, even when the second parties are identical. -/
theorem c4_different_first_party_no_match (name1 name2 : String)
    (a1 b1 a2 b2 : List Char)
    (h1 : splitOnL " v ".data (matchNormL name1.data) = [a1, b1])
    (h2 : splitOnL " v ".data (matchNormL name2.data) = [a2, b2])
    (hc1 : pyInL (matchNormL name1.data) (matchNormL name2.data) = false)
    (hc2 : pyInL (matchNormL name2.data) (matchNormL name1.data) = false)
    (hp : (stripL a1).take 6 ≠ (stripL a2).take 6) :
    names_match name1 name2 = false := by
  rw [names_match, namesMatchL, hc1, hc2, h1, h2, if_neg (by decide)]
  show (((stripL a1).take 6 == (stripL a2).take 6) &&
    ((stripL b1).take 6 == (stripL b2).take 6)) = false
  rw [beq_eq_false_iff_ne.mpr hp, Bool.false_and]

/-- C4 (amended) witness at `"alpha v beta"` vs `"gamma v beta"`. -/
theorem c4_witness :
    splitOnL " v ".data (matchNormL "alpha v beta".data) =
      ["alpha".data, "beta".data] ∧
    splitOnL " v ".data (matchNormL "gamma v beta".data) =
      ["gamma".data, "beta".data] ∧
    pyInL (matchNormL "alpha v beta".data) (matchNormL "gamma v beta".data) = false ∧
    pyInL (matchNormL "gamma v beta".data) (matchNormL "alpha v beta".data) = false ∧
    (stripL "alpha".data).take 6 ≠ (stripL "gamma".data).take 6 ∧
    names_match "alpha v beta" "gamma v beta" = false :=
  ⟨by decide, by decide, by decide, by decide, by decide,
    c4_different_first_party_no_match "alpha v beta" "gamma v beta"
      "alpha".data "beta".data "gamma".data "beta".data
      (by decide) (by decide) (by decide) (by decide) (by decide)⟩

/-- C5 counterexample: `"a vs b"` and `"a vs. b"` differ only by the
punctuation character `'.'` (their punctuation-stripped forms coincide),
yet the Name Matcher returns `false`: the `" vs. "` separator is
canonicalized to `" v "` in one name but `" vs "` survives in the other. -/
theorem c5_counterexample :
    "a vs b".data.filter keepAlnumSpace = "a vs. b".data.filter keepAlnumSpace ∧
    "a vs b" ≠ "a vs. b" ∧
    names_match "a vs b" "a vs. b" = false := by
  refine ⟨by decide, by decide, by decide⟩

/-- C5 (amended): whenever the two names' normalized forms stand in a
containment relation — which covers a trailing `"et al."` and punctuation
differences that survive normalization — the Name Matcher returns true. -/
theorem c5_containment_matches (name1 name2 : String)
    (h : pyInL (matchNormL name1.data) (matchNormL name2.data) = true ∨
      pyInL (matchNormL name2.data) (matchNormL name1.data) = true) :
    names_match name1 name2 = true := by
  rcases h with h | h
  · rw [names_match, namesMatchL, h, Bool.true_or, if_pos rfl]
  · rw [names_match, namesMatchL, h, Bool.or_true, if_pos rfl]

/-- C5 (amended) witness at `"Smith v Jones"` vs `"Smith v. Jones et al."`
(a punctuation difference plus a trailing `"et al."`). -/
theorem c5_witness :
    (pyInL (matchNormL "Smith v Jones".data)
        (matchNormL "Smith v. Jones et al.".data) = true ∨
      pyInL (matchNormL "Smith v. Jones et al.".data)
        (matchNormL "Smith v Jones".data) = true) ∧
    names_match "Smith v Jones" "Smith v. Jones et al." = true :=
  ⟨Or.inl (by decide),
    c5_containment_matches "Smith v Jones" "Smith v. Jones et al."
      (Or.inl (by decide))⟩

/-- First-result composition is `none` exactly when both arguments are. -/
theorem firstSome_eq_none (a b : Option Rec) :
    firstSome a b = none ↔ a = none ∧ b = none := by
  cases a <;> simp [firstSome]

/-- An early-return match on an option is the `firstSome` composition. -/
theorem opt_firstSome (o b : Option Rec) :
    (match o with | some r => some r | none => b) = firstSome o b := by
  cases o <;> rfl

/-- C7: `best_match` implements exactly the spec's tie-break order — rule 1
(Name-Matcher identity), then rule 2 (8-character party containment, only
when the target splits into exactly two parties), then the first candidate
in adapter order; and it returns `none` precisely when the candidate list is
empty. -/
theorem c7_best_match_tiebreak (target_name : String) (results : List Rec) :
    best_match target_name results = specBestMatch target_name results ∧
    (best_match target_name results = none ↔ results = []) := by
  have heq : best_match target_name results = specBestMatch target_name results := by
    unfold best_match specBestMatch specRule1 specRule2
    cases hf : results.find? (fun r =>
        namesMatchL (stripL (lowerL target_name.data)) (lowerL (getNameL r))) with
    | some r => rfl
    | none =>
      cases hs : pySplitV (stripL (lowerL target_name.data)) with
      | nil => rfl
      | cons p1 rest =>
        cases rest with
        | nil => rfl
        | cons p2 rest2 =>
          cases rest2 with
          | nil => exact opt_firstSome _ _
          | cons p3 rest3 => rfl
  refine ⟨heq, ?_⟩
  rw [heq]
  cases results with
  | nil =>
    refine iff_of_true ?_ rfl
    unfold specBestMatch specRule1 specRule2
    cases pySplitV (stripL (lowerL target_name.data)) with
    | nil => rfl
    | cons p1 rest =>
      cases rest with
      | nil => rfl
      | cons p2 rest2 =>
        cases rest2 with
        | nil => rfl
        | cons p3 rest3 => rfl
  | cons r rs =>
    refine iff_of_false ?_ (by simp)
    intro h
    rw [specBestMatch] at h
    rcases (firstSome_eq_none _ _).mp h with ⟨_, h2⟩
    rcases (firstSome_eq_none _ _).mp h2 with ⟨_, h3⟩
    simp at h3

/-- C8: the statute gap set partitions the requested names — a requested
statute name with no corresponding found-statute title (by lowercased mutual
containment) is in the gap list, and no requested name is simultaneously in
the gap list and in the found sublist. -/
theorem c8_statute_gap_partition (identified : List String) (found : List Rec)
    (name : String) (hmem : name ∈ identified) :
    (wasFound found name = false → name ∈ missingStatutes identified found) ∧
    ¬ (name ∈ missingStatutes identified found ∧
        name ∈ identified.filter (fun n => wasFound found n)) := by
  constructor
  · intro hnf
    rw [missingStatutes, List.mem_filter]
    exact ⟨hmem, by rw [hnf]; rfl⟩
  · rintro ⟨h1, h2⟩
    rw [missingStatutes, List.mem_filter] at h1
    rw [List.mem_filter] at h2
    have hf1 := h1.2
    have hf2 := h2.2
    rw [Bool.not_eq_true'] at hf1
    rw [hf2] at hf1
    exact Bool.noConfusion hf1

/-- C8 witness: `"42 U.S.C. § 1983"` requested, nothing found. -/
theorem c8_witness :
    ("42 U.S.C. § 1983" ∈ (["42 U.S.C. § 1983"] : List String)) ∧
    ((wasFound [] "42 U.S.C. § 1983" = false →
        "42 U.S.C. § 1983" ∈ missingStatutes ["42 U.S.C. § 1983"] []) ∧
      ¬ ("42 U.S.C. § 1983" ∈ missingStatutes ["42 U.S.C. § 1983"] [] ∧
          "42 U.S.C. § 1983" ∈
            (["42 U.S.C. § 1983"] : List String).filter (fun n => wasFound [] n))) :=
  ⟨by decide,
    c8_statute_gap_partition ["42 U.S.C. § 1983"] [] "42 U.S.C. § 1983" (by decide)⟩

/-- C9: case deduplication is idempotent — applying `_deduplicate` to its
own output returns that output unchanged. -/
theorem c9_deduplicate_idempotent (cases : List Rec) :
    deduplicate (deduplicate cases) = deduplicate cases := by
  rw [deduplicate, deduplicate]
  apply dedupGo_eq_self
  · intro r hr
    refine ⟨(mem_dedupGo _ _ hr).1, ?_⟩
    simp
  · exact dedupGo_pairwise _ _

/-- C1 (amended): every record in the output of the dedup step has a dedup
key (lowercased, punctuation-stripped, whitespace-collapsed, 60-character
truncated name) distinct from every other record's — deduplication is by
exact equality of normalized keys, not by Name-Matcher identity. -/
theorem c1_dedup_keys_pairwise_distinct (cases : List Rec) :
    (deduplicate cases).Pairwise (fun a b => dedupKeyL a ≠ dedupKeyL b) :=
  dedupGo_pairwise cases []

/-- C10: every record in the final cases output of a fetch call has a
non-empty dedup key — records whose case-name is absent or normalizes to the
empty string are removed by the dedup step, and landmark appends only add
table entries, whose names are non-empty. -/
theorem c10_nonempty_dedup_keys (env : Env)
    (case_names statute_names search_queries : List String) (order : List Task)
    (r : Rec)
    (hr : r ∈ (fetch env LANDMARK_CASES case_names statute_names
        search_queries order).cases) :
    dedupKeyL r ≠ [] := by
  have hok : tableKeysOK LANDMARK_CASES := by
    unfold tableKeysOK
    decide
  refine landmarkPhase_keys case_names LANDMARK_CASES
    (deduplicate (order.flatMap (taskCases env))) hok ?_ r hr
  intro r2 hr2
  exact (mem_dedupGo _ _ hr2).1

/-- Record and environment for the C10 witness. -/
def wrecC10 : Rec := { case_name := some "Marbury v. Madison" }

def envC10 : Env :=
  { cl_search := fun _ _ => [wrecC10], congress_search := fun _ _ => [] }

/-- C10 witness: a concrete fetch whose single output record has a
non-empty dedup key. -/
theorem c10_witness :
    (wrecC10 ∈ (fetch envC10 LANDMARK_CASES ["Marbury v. Madison"] [] []
        (tasksOf ["Marbury v. Madison"] [] [])).cases) ∧
    dedupKeyL wrecC10 ≠ [] :=
  ⟨by decide,
    c10_nonempty_dedup_keys envC10 ["Marbury v. Madison"] [] []
      (tasksOf ["Marbury v. Madison"] [] []) wrecC10 (by decide)⟩

/-- C3 (amended): a fetch call never changes the seeded
`{case_name, citation, topic}` core of any landmark-table entry (only the
`source`/`is_landmark` tags of a matched entry are written in place). -/
theorem c3_landmark_core_fields_preserved (env : Env)
    (case_names statute_names search_queries : List String) (order : List Task) :
    coreTable (fetch env LANDMARK_CASES case_names statute_names
        search_queries order).table = coreTable LANDMARK_CASES :=
  landmarkPhase_coreTable case_names LANDMARK_CASES _

/-- An environment in which every adapter returns nothing. -/
def envEmpty : Env :=
  { cl_search := fun _ _ => [], congress_search := fun _ _ => [] }

/-- C3 counterexample: a fetch call for the requested case name
`"Katz v. United States fourth amendment"` (which hits the
`"fourth amendment"` topic and identity-matches the Katz entry) mutates the
landmark table in place — the table after the call differs from the table
before, because the matched entry was tagged with `source`/`is_landmark`. -/
theorem c3_counterexample :
    (fetch envEmpty LANDMARK_CASES ["Katz v. United States fourth amendment"]
        [] [] (tasksOf ["Katz v. United States fourth amendment"] [] [])).table ≠
      LANDMARK_CASES := by
  decide

/-- C6 (amended): for a fixed set of adapter responses, the dedup-key set of
the deduplicated cases list (before landmark enrichment) is the same for
every task completion order — any permutation of the raw collected results
yields the same key membership. -/
theorem c6_dedup_key_set_order_invariant (raw1 raw2 : List Rec)
    (hperm : raw1.Perm raw2) (k : List Char) :
    k ∈ (deduplicate raw1).map dedupKeyL ↔
      k ∈ (deduplicate raw2).map dedupKeyL := by
  rw [deduplicate, deduplicate, mem_map_key_dedupGo, mem_map_key_dedupGo,
    (hperm.map dedupKeyL).mem_iff]

/-- Records for the C6 amended witness. -/
def wrecX : Rec := { case_name := some "Lochner v. New York" }

def wrecY : Rec := { case_name := some "Plessy v. Ferguson" }

/-- C6 (amended) witness at a two-element swap. -/
theorem c6_witness :
    ([wrecX, wrecY].Perm [wrecY, wrecX]) ∧
    (dedupKeyL wrecX ∈ (deduplicate [wrecX, wrecY]).map dedupKeyL ↔
      dedupKeyL wrecX ∈ (deduplicate [wrecY, wrecX]).map dedupKeyL) :=
  ⟨List.Perm.swap wrecY wrecX [],
    c6_dedup_key_set_order_invariant [wrecX, wrecY] [wrecY, wrecX]
      (List.Perm.swap wrecY wrecX []) (dedupKeyL wrecX)⟩

/-- Records and environment for the C1 counterexample. -/
def recHarlowShort : Rec := { case_name := some "Harlow v. Fitzgerald" }

def recHarlowLong : Rec :=
  { case_name := some "Harlow v. Fitzgerald, 457 U.S. 800" }

def envC1 : Env :=
  { cl_search := fun q _ =>
      if q = "\"Harlow v. Fitzgerald\"" then [recHarlowShort]
      else if q = "qi" then [recHarlowLong] else [],
    congress_search := fun _ _ => [] }

/-- C1 counterexample: a fetch call (one requested case plus one search
query) whose final cases list contains two entries whose case names are an
identity-match per the Name Matcher — their dedup keys differ (one
normalized name strictly contains the other), so key-equality dedup keeps
both. -/
theorem c1_counterexample :
    (fetch envC1 LANDMARK_CASES ["Harlow v. Fitzgerald"] [] ["qi"]
        (tasksOf ["Harlow v. Fitzgerald"] [] ["qi"])).cases =
      [recHarlowShort, recHarlowLong] ∧
    names_match "Harlow v. Fitzgerald" "Harlow v. Fitzgerald, 457 U.S. 800" =
      true := by
  refine ⟨by decide, by decide⟩

/-- Names and environment for the C6 counterexample: two adapter records
share a 60-character-truncated dedup key but only the first contains the
landmark name `"carpenter v united states"`, so which representative
survives dedup decides whether the landmark entry is appended. -/
def nameC6A : String :=
  String.mk (List.replicate 35 'z' ++ " carpenter v united states".data)

def nameC6B : String :=
  String.mk (List.replicate 35 'z' ++ " carpenter v united statex".data)

def recC6A : Rec := { case_name := some nameC6A }

def recC6B : Rec := { case_name := some nameC6B }

def reqC6 : String := "fourth amendment carpenter v. united states"

def envC6 : Env :=
  { cl_search := fun q _ =>
      if q = quotedQuery reqC6 then [recC6A]
      else if q = "q6" then [recC6B] else [],
    congress_search := fun _ _ => [] }

def ordC6a : List Task := [Task.case reqC6, Task.search "q6"]

def ordC6b : List Task := [Task.search "q6", Task.case reqC6]

/-- C6 counterexample: two completion orders of the same task set, over the
same fixed adapter responses, produce different dedup-key sets in the final
cases output — the key `"carpenter v united states"` (the appended landmark
entry) is present under one order and absent under the other. -/
theorem c6_counterexample :
    ordC6a.Perm ordC6b ∧
    "carpenter v united states".data ∈
      (fetch envC6 LANDMARK_CASES [reqC6] [] ["q6"] ordC6b).cases.map dedupKeyL ∧
    ¬ "carpenter v united states".data ∈
      (fetch envC6 LANDMARK_CASES [reqC6] [] ["q6"] ordC6a).cases.map dedupKeyL := by
  refine ⟨List.Perm.swap (Task.search "q6") (Task.case reqC6) [], by decide, by decide⟩

end USConstitutionalResearch
